import Mathlib

/-!
Verification of the `zarrify` write pipeline (`src/zarrify/core.py`) against its
natural-language specification.

The embedding below translates the pieces of `core.py` that the claims touch:

* the write-with-retry loop shared by `_write_region_with_retry`,
  `_convert_with_retry` and `_append_with_retry` (lines 297-377, 511-584,
  615-690);
* the missing-data verification `_has_missing` (lines 379-441);
* the region locator `_determine_region` (lines 443-478);
* the frequency inference of `_create_hindcast_template` (lines 191-202);
* the chunk-plan extraction `_chunking_config_to_dict` (lines 161-170);
* the storage-engine write mode used by `convert` (`mode="w"`, line 551).

Exceptions, datasets and the storage engine are modelled at the granularity the
code observes them: an attempt of the loop body either raises some exception or
writes and then evaluates the missing-data check; datasets are association
lists from variable name to the variable's missingness mask over the sequence
axis (`isnull` is the identity in this representation); time coordinates are
integers (e.g. days since an epoch).
-/

/-- Exception kinds observable by the retry loop.  The loop in `core.py`
catches the bare `Exception` class, so the kind is carried only for reporting:
the control flow never inspects it (this is what claim C4 is about). -/
inductive Exn
  | structuralMismatch
  | planningError
  | keyError
  | ioError
  | alreadyExists
  | other
  deriving DecidableEq

/-- Outcome of one execution of the loop body of `_write_region_with_retry`
(open + process + write, then the missing-data check when the write succeeded).
`raises e` models any exception escaping the `try` block before the check;
`written m` models a completed `to_zarr` call with `m` the value returned by
`_has_missing` (which never raises, see `hasMissing`). -/
inductive AttemptStep
  | raises (e : Exn)
  | written (missing : Bool)

/-- Terminal outcome of `_write_region_with_retry` / `_convert_with_retry`:
normal return, `RetryLimitExceededError` (carrying `self.retried_on_missing`),
or `ConversionError` wrapping the last attempt's exception after exhausting
retries. -/
inductive WriteOutcome
  | done
  | retryLimit (retries : Nat)
  | conversionError (retries : Nat) (cause : Exn)
  deriving DecidableEq

/-- Trace of one invocation of the retry loop: terminal outcome, total number
of executions of the loop body (write attempts), and the sequence of
`retried_on_missing` counter values at each `time.sleep(0.1 * counter)` call,
in order. -/
structure RunResult where
  outcome : WriteOutcome
  attempts : Nat
  sleeps : List Nat
  deriving DecidableEq

/-- The duration of `time.sleep(0.1 * counter)` in `core.py` lines 355, 374
(and the analogous lines of the convert/append loops). -/
def sleepSeconds (counter : Nat) : ℚ := (1 / 10 : ℚ) * counter

/-- The `while True` loop of `_write_region_with_retry` (`core.py` 315-377);
`_convert_with_retry` and `_append_with_retry` share the identical structure.

`check` is the truthiness of `config.missing_data.missing_check_vars` (the
`if ... and self._has_missing(...)` guard); `maxRetries` is
`config.missing_data.retries_on_missing`; `attempt idx` is the outcome of the
`(idx+1)`-th execution of the body; `retried` is `self.retried_on_missing` on
entry to the body.  A `RetryLimitExceededError` raised when the regression
persists at the limit is re-raised by the dedicated `except` clause; every
other exception falls to the generic `except Exception` clause and is retried
while `retried < maxRetries`, sleeping `0.1 * (retried+1)` first. -/
def writeLoop (check : Bool) (maxRetries : Nat) (attempt : Nat → AttemptStep)
    (retried idx : Nat) : RunResult :=
  match attempt idx with
  | .written missing =>
    if check && missing then
      if _h : retried < maxRetries then
        let r := writeLoop check maxRetries attempt (retried + 1) (idx + 1)
        { outcome := r.outcome, attempts := r.attempts + 1,
          sleeps := (retried + 1) :: r.sleeps }
      else
        { outcome := .retryLimit retried, attempts := 1, sleeps := [] }
    else
      { outcome := .done, attempts := 1, sleeps := [] }
  | .raises e =>
    if _h : retried < maxRetries then
      let r := writeLoop check maxRetries attempt (retried + 1) (idx + 1)
      { outcome := r.outcome, attempts := r.attempts + 1,
        sleeps := (retried + 1) :: r.sleeps }
    else
      { outcome := .conversionError retried e, attempts := 1, sleeps := [] }
termination_by maxRetries - retried
decreasing_by all_goals omega

/-- A public operation (`write_region` / `convert` / `append`) resets
`self.retried_on_missing = 0` and enters the loop (`core.py` 286, 500, 604). -/
def writeRegionWithRetry (check : Bool) (maxRetries : Nat)
    (attempt : Nat → AttemptStep) : RunResult :=
  writeLoop check maxRetries attempt 0 0

lemma writeLoop_allMissing (maxRetries : Nat) (attempt : Nat → AttemptStep)
    (hall : ∀ n, attempt n = .written true) :
    ∀ k retried idx, maxRetries - retried = k → retried ≤ maxRetries →
      writeLoop true maxRetries attempt retried idx =
        { outcome := .retryLimit maxRetries, attempts := k + 1,
          sleeps := List.range' (retried + 1) k } := by
  intro k
  induction k with
  | zero =>
    intro retried idx hk hle
    have hret : retried = maxRetries := by omega
    rw [writeLoop, hall idx]
    simp [hret]
  | succ k ih =>
    intro retried idx hk hle
    have hlt : retried < maxRetries := by omega
    rw [writeLoop, hall idx]
    simp only [Bool.true_and, if_pos rfl, dif_pos hlt,
      ih (retried + 1) (idx + 1) (by omega) (by omega)]
    simp [List.range'_succ]

lemma writeLoop_allRaises (check : Bool) (maxRetries : Nat) (e : Exn)
    (attempt : Nat → AttemptStep) (hall : ∀ n, attempt n = .raises e) :
    ∀ k retried idx, maxRetries - retried = k → retried ≤ maxRetries →
      writeLoop check maxRetries attempt retried idx =
        { outcome := .conversionError maxRetries e, attempts := k + 1,
          sleeps := List.range' (retried + 1) k } := by
  intro k
  induction k with
  | zero =>
    intro retried idx hk hle
    have hret : retried = maxRetries := by omega
    rw [writeLoop, hall idx]
    simp [hret]
  | succ k ih =>
    intro retried idx hk hle
    have hlt : retried < maxRetries := by omega
    rw [writeLoop, hall idx]
    simp only [dif_pos hlt, ih (retried + 1) (idx + 1) (by omega) (by omega)]
    simp [List.range'_succ]

lemma writeLoop_sleeps (check : Bool) (maxRetries : Nat)
    (attempt : Nat → AttemptStep) :
    ∀ k retried idx, maxRetries - retried = k →
      ∃ j, j ≤ k ∧
        (writeLoop check maxRetries attempt retried idx).sleeps =
          List.range' (retried + 1) j := by
  intro k
  induction k with
  | zero =>
    intro retried idx hk
    have hge : ¬ retried < maxRetries := by omega
    refine ⟨0, Nat.le_refl 0, ?_⟩
    rw [writeLoop]
    match hstep : attempt idx with
    | .written missing =>
      by_cases hcm : check && missing <;> simp [hcm, hge]
    | .raises e => simp [hge]
  | succ k ih =>
    intro retried idx hk
    rw [writeLoop]
    match hstep : attempt idx with
    | .written missing =>
      by_cases hcm : check && missing
      · by_cases hlt : retried < maxRetries
        · obtain ⟨j, hj, hs⟩ := ih (retried + 1) (idx + 1) (by omega)
          refine ⟨j + 1, by omega, ?_⟩
          simp [hcm, hlt, hs, List.range'_succ]
        · exact ⟨0, by omega, by simp [hcm, hlt]⟩
      · exact ⟨0, by omega, by simp [hcm]⟩
    | .raises e =>
      by_cases hlt : retried < maxRetries
      · obtain ⟨j, hj, hs⟩ := ih (retried + 1) (idx + 1) (by omega)
        refine ⟨j + 1, by omega, ?_⟩
        simp [hlt, hs, List.range'_succ]
      · exact ⟨0, by omega, by simp [hlt]⟩

/-- A dataset restricted to what the missing-data check observes: an
association list from data-variable name to the variable's missingness mask
(the pointwise result of `isnull`, flattened along the sequence axis). -/
abbrev DataVars := List (String × List Bool)

/-- The possible values of `config.missing_data.missing_check_vars` as
`_has_missing` (`core.py` 396-412) distinguishes them: `None` (or another
falsy value), the string `"all"`, a list/tuple of names, or some other truthy
value (rejected with a warning). -/
inductive CheckVars
  | noneSpec
  | all
  | vars (vs : List String)
  | invalid
  deriving DecidableEq

/-- Python truthiness of the `missing_check_vars` config value, used by the
`if not self.config.missing_data.missing_check_vars` guard (`core.py` 396)
and by the `if ... and self._has_missing(...)` guards of the loops. -/
def CheckVars.falsy : CheckVars → Bool
  | .noneSpec => true
  | .vars vs => vs.isEmpty
  | _ => false

/-- Python slice `mask[s:e]` on the sequence axis, as performed by
`dset_out.isel(region_filtered)` for a region `{time: slice(s, e)}`. -/
def regionSel (s e : Nat) (mask : List Bool) : List Bool :=
  (mask.drop s).take (e - s)

/-- Variable selection `dset[names]` (`core.py` 415-416): returns the selected
`(name, mask)` pairs in order, or a `KeyError` when a name is absent. -/
def selectVars (d : DataVars) (names : List String) : Except Exn DataVars :=
  match names with
  | [] => .ok []
  | n :: rest =>
    match d.find? (fun p => p.1 == n) with
    | some p =>
      match selectVars d rest with
      | .ok r => .ok (p :: r)
      | .error e => .error e
    | none => .error .keyError

/-- The per-variable comparison loop of `_has_missing` (`core.py` 428-437):
flag a regression when, for some checked variable, the written-region mask and
the input mask are not pointwise equal (`not (out == in).all()`).  The two
lists are the selections of the same name list, so they pair up by position. -/
def masksDiffer (dsmissOut dsmissIn : DataVars) : Bool :=
  (dsmissOut.zip dsmissIn).any (fun p => !(p.1.2 == p.2.2))

/-- The selection-and-comparison part of `_has_missing` (`core.py` 415-437):
select the checked variables from the store and the input, restrict the store
side to the written region, and compare masks. -/
def hasMissingCompare (st input : DataVars) (names : List String)
    (region : Option (Nat × Nat)) : Except Exn Bool :=
  match selectVars st names with
  | .error e => .error e
  | .ok dsetOut =>
    match selectVars input names with
    | .error e => .error e
    | .ok dsetIn =>
      let dsmissOut := match region with
        | some (s, e) => dsetOut.map (fun p => (p.1, regionSel s e p.2))
        | none => dsetOut
      .ok (masksDiffer dsmissOut dsetIn)

/-- The body of the `try` block of `_has_missing` after the store has been
opened (`core.py` 404-437): resolve `"all"` to the store's variable names,
reject a non-list spec (`return False`), then select and compare. -/
def hasMissingTry (st input : DataVars) (cv : CheckVars)
    (region : Option (Nat × Nat)) : Except Exn Bool :=
  match cv with
  | .noneSpec => .ok false
  | .invalid => .ok false
  | .all => hasMissingCompare st input (st.map (·.1)) region
  | .vars vs => hasMissingCompare st input vs region

/-- Model of `_has_missing` (`core.py` 379-441).  `store` is the result of
`xr.open_zarr` on the archive: `.error` when re-opening raises.  The falsy
guard returns `False` before the `try`; inside the `try`, any exception (from
opening, selection, or comparison) is caught and the function returns `False`
(`core.py` 439-441). -/
def hasMissing (cv : CheckVars) (store : Except Exn DataVars)
    (input : DataVars) (region : Option (Nat × Nat)) : Bool :=
  if cv.falsy then false
  else
    match store with
    | .error _ => false
    | .ok st =>
      match hasMissingTry st input cv region with
      | .ok b => b
      | .error _ => false

/-- Model of `np.searchsorted(axis, v, side='left')` on a sorted axis: the number of
leading elements strictly below `v`, i.e. the first index whose entry is
`≥ v` (`core.py` 467). -/
def searchsortedLeft (axis : List Int) (v : Int) : Nat :=
  (axis.takeWhile (fun x => decide (x < v))).length

/-- Model of `np.searchsorted(axis, v, side='right')` on a sorted axis: the number of
leading elements `≤ v`, i.e. the first index whose entry is `> v`
(`core.py` 468). -/
def searchsortedRight (axis : List Int) (v : Int) : Nat :=
  (axis.takeWhile (fun x => decide (x ≤ v))).length

/-- Sortedness (non-decreasing) of the archive's persisted time axis — the
precondition under which `np.searchsorted` binary search is meaningful.  The
template builder constructs the axis with `pd.date_range`, which is sorted. -/
def isSorted : List Int → Bool
  | [] => true
  | [_] => true
  | x :: y :: rest => x ≤ y && isSorted (y :: rest)

/-- A per-dimension slice of a region dictionary: `range s e` is
`slice(s, e)`, `full` is `slice(None)`. -/
inductive DimSlice
  | range (start stop : Nat)
  | full
  deriving DecidableEq

/-- The index interval a slice denotes on a dimension of length `len`:
`slice(None)` selects the whole `[0, len)` interval. -/
def DimSlice.indices (len : Nat) : DimSlice → Nat × Nat
  | .range s e => (s, e)
  | .full => (0, len)

/-- Model of `_determine_region` (`core.py` 443-478): binary-search the archive's time
axis for the fragment's first and last time coordinates, return
`{time: slice(start_idx, end_idx)}` plus `slice(None)` for every other
archive dimension.  `fragTimes` must be nonempty for the Python code to index
`[0]` and `[-1]`; `archiveDims` lists the archive's dimensions with lengths. -/
def determineRegion (timeDim : String) (fragTimes axisTimes : List Int)
    (archiveDims : List (String × Nat)) : List (String × DimSlice) :=
  let startIdx := searchsortedLeft axisTimes (fragTimes.headD 0)
  let endIdx := searchsortedRight axisTimes (fragTimes.getLastD 0)
  (timeDim, .range startIdx endIdx) ::
    archiveDims.filterMap (fun p =>
      if p.1 == timeDim then none else some (p.1, DimSlice.full))

/-- The frequency value used for the template's time axis: either the
caller/config-supplied one, a `Timedelta` difference of sample coordinates, or
the literal default string `"1D"`. -/
inductive Freq
  | delta (d : Int)
  | oneDay
  deriving DecidableEq

/-- The frequency resolution of `_create_hindcast_template` (`core.py`
196-202): keep a supplied frequency; otherwise infer `times[1] - times[0]`
when the sample's time coordinate has at least two points, else default to
`"1D"`. -/
def inferFreq (freq : Option Freq) (times : List Int) : Freq :=
  match freq with
  | some f => f
  | none =>
    match times with
    | t0 :: t1 :: _ => .delta (t1 - t0)
    | _ => .oneDay

/-- Modelled from the spec: `ChunkingConfig` is defined in `zarrify/models.py`,
which is absent from the sources; per the spec's ChunkPlan ("mapping from
dimension name to a positive integer chunk length") it is modelled as a finite
map from dimension name to an optional configured chunk length. -/
structure ChunkingConfig where
  entries : List (String × Nat)

/-- The configured chunk length for dimension `d` (attribute access such as
`self.config.chunking.time`). -/
def ChunkingConfig.get (c : ChunkingConfig) (d : String) : Option Nat :=
  (c.entries.find? (fun p => p.1 == d)).map (·.2)

/-- Model of `_chunking_config_to_dict` (`core.py` 161-170): builds the applied chunk
dictionary by reading exactly the `time`, `lat` and `lon` fields of the
chunking config, skipping each one that is `None`. -/
def chunkingConfigToDict (c : ChunkingConfig) : List (String × Nat) :=
  (match c.get "time" with | some n => [("time", n)] | none => []) ++
  (match c.get "lat" with | some n => [("lat", n)] | none => []) ++
  (match c.get "lon" with | some n => [("lon", n)] | none => [])

/-- Lookup in the applied chunk dictionary (`if dim in chunking_dict`,
`core.py` 244). -/
def dictLookup (d : List (String × Nat)) (k : String) : Option Nat :=
  (d.find? (fun p => p.1 == k)).map (·.2)

/-- The `to_zarr` creation modes `core.py` uses: `"w"` (used by `convert` and
`create_template`) and the fail-if-exists variant `"w-"` that the spec's
fail-unless-overwriting behavior would require. -/
inductive ToZarrMode
  | w
  | wDash
  deriving DecidableEq

/-- The mode constant of the full-conversion write `ds.to_zarr(str(output_path),
mode="w", encoding=encoding)` (`core.py` 551). -/
def convertWriteMode : ToZarrMode := ToZarrMode.w

/-- Semantics of the external storage engine's create-at-path call, as
documented for `xarray.Dataset.to_zarr`: mode `"w"` creates the store,
replacing an existing one; mode `"w-"` fails when a store already exists.
`existing` is the store currently at the output path, if any. -/
def toZarrStore (mode : ToZarrMode) (existing : Option DataVars)
    (ds : DataVars) : Except Exn DataVars :=
  match mode with
  | .w => .ok ds
  | .wDash =>
    match existing with
    | some _ => .error .alreadyExists
    | none => .ok ds

/-- The WRITE step of a `convert` attempt against the store currently at the
output path (`core.py` 551). -/
def convertWriteStep (existing : Option DataVars) (ds : DataVars) :
    Except Exn DataVars :=
  toZarrStore convertWriteMode existing ds

lemma length_takeWhile_le' (p : Int → Bool) (xs : List Int) :
    (xs.takeWhile p).length ≤ xs.length := by
  induction xs with
  | nil => simp
  | cons x xs ih =>
    by_cases h : p x
    · simp only [List.takeWhile_cons, if_pos h, List.length_cons]
      omega
    · simp [List.takeWhile_cons, h]

lemma takeWhile_getD_sat (p : Int → Bool) (xs : List Int) (dflt : Int) :
    ∀ i, i < (xs.takeWhile p).length → p (xs.getD i dflt) = true := by
  induction xs with
  | nil => simp
  | cons x xs ih =>
    intro i hi
    by_cases h : p x
    · rw [List.takeWhile_cons, if_pos h] at hi
      cases i with
      | zero => simpa using h
      | succ i =>
        simp only [List.length_cons, Nat.add_lt_add_iff_right] at hi
        simpa using ih i hi
    · rw [List.takeWhile_cons, if_neg h] at hi
      simp at hi

lemma takeWhile_getD_stop (p : Int → Bool) (xs : List Int) (dflt : Int)
    (h : (xs.takeWhile p).length < xs.length) :
    p (xs.getD (xs.takeWhile p).length dflt) = false := by
  induction xs with
  | nil => simp at h
  | cons x xs ih =>
    by_cases hx : p x
    · rw [List.takeWhile_cons, if_pos hx] at h ⊢
      simp only [List.length_cons, Nat.add_lt_add_iff_right] at h
      simpa using ih h
    · simp [List.takeWhile_cons, hx]

lemma takeWhile_length_lt_of_mem (p : Int → Bool) (xs : List Int) (x : Int)
    (hx : x ∈ xs) (hp : p x = false) :
    (xs.takeWhile p).length < xs.length := by
  induction xs with
  | nil => simp at hx
  | cons y ys ih =>
    by_cases hy : p y
    · rw [List.takeWhile_cons, if_pos hy]
      rcases List.mem_cons.mp hx with rfl | hmem
      · rw [hy] at hp; simp at hp
      · simpa using ih hmem
    · simp [List.takeWhile_cons, hy]

/-- The mask stored for variable `n` (empty when the variable is absent);
used to phrase the verification theorems. -/
def lookupMask (d : DataVars) (n : String) : List Bool :=
  ((d.find? (fun p => p.1 == n)).map (·.2)).getD []

lemma selectVars_ok (d : DataVars) (names : List String)
    (h : ∀ n ∈ names, (d.find? (fun p => p.1 == n)).isSome) :
    selectVars d names = .ok (names.map (fun n => (n, lookupMask d n))) := by
  induction names with
  | nil => rfl
  | cons n rest ih =>
    have hn := h n (List.mem_cons_self n rest)
    obtain ⟨p, hp⟩ := Option.isSome_iff_exists.mp hn
    have hname : p.1 = n := by
      have hbeq := List.find?_some hp
      exact eq_of_beq hbeq
    rw [selectVars, hp, ih (fun m hm => h m (List.mem_cons_of_mem _ hm))]
    have hmask : lookupMask d n = p.2 := by simp [lookupMask, hp]
    have hpair : p = (n, lookupMask d n) := by
      rw [hmask, ← hname]
    rw [List.map_cons, ← hpair]

lemma hasMissing_of_store_error (cv : CheckVars) (e : Exn) (input : DataVars)
    (region : Option (Nat × Nat)) :
    hasMissing cv (.error e) input region = false := by
  cases cv <;> simp [hasMissing, CheckVars.falsy]

/-- C1: with missing-data checking active and `max_retries` configured, if the
post-write verification reports a regression on every attempt, the controller
performs exactly `max_retries + 1` write attempts, sleeping between successive
attempts (counter values `1, …, max_retries`), and then raises the
retry-limit (regression) error carrying `max_retries`. -/
theorem retry_bound_exact_attempts (maxRetries : Nat)
    (attempt : Nat → AttemptStep) (hall : ∀ n, attempt n = .written true) :
    writeRegionWithRetry true maxRetries attempt =
      { outcome := .retryLimit maxRetries, attempts := maxRetries + 1,
        sleeps := List.range' 1 maxRetries } := by
  simpa [writeRegionWithRetry] using
    writeLoop_allMissing maxRetries attempt hall maxRetries 0 0 (by omega)
      (by omega)

theorem retry_bound_exact_attempts_witness :
    (∀ n, (fun _ : Nat => AttemptStep.written true) n = .written true) ∧
    writeRegionWithRetry true 2 (fun _ => .written true) =
      { outcome := .retryLimit 2, attempts := 3, sleeps := [1, 2] } := by
  refine ⟨fun n => rfl, ?_⟩
  rw [retry_bound_exact_attempts 2 (fun _ => .written true) (fun n => rfl)]
  decide

/-- C4 counterexample: a structural-mismatch exception raised by the write is
NOT raised immediately — with `max_retries = 1` the controller performs a
second attempt and sleeps once before failing, because the loop's generic
`except Exception` clause retries every exception kind alike. -/
theorem structural_error_retried_cx :
    writeRegionWithRetry true 1 (fun _ => .raises .structuralMismatch) =
      { outcome := .conversionError 1 .structuralMismatch, attempts := 2,
        sleeps := [1] } := by
  rw [writeRegionWithRetry,
    writeLoop_allRaises true 1 .structuralMismatch _ (fun n => rfl) 1 0 0
      (by omega) (by omega)]
  decide

/-- C4 amended: no exception kind is exempt from retry.  Every exception
raised during an attempt — structural mismatch and planning errors included —
is retried like a regression, up to `max_retries` with the linear backoff,
after which a `ConversionError` carrying the retry count and the last cause is
raised.  (Only the internally raised retry-limit error propagates without
retry.) -/
theorem exceptions_always_retried (check : Bool) (maxRetries : Nat) (e : Exn)
    (attempt : Nat → AttemptStep) (hall : ∀ n, attempt n = .raises e) :
    writeRegionWithRetry check maxRetries attempt =
      { outcome := .conversionError maxRetries e, attempts := maxRetries + 1,
        sleeps := List.range' 1 maxRetries } := by
  simpa [writeRegionWithRetry] using
    writeLoop_allRaises check maxRetries e attempt hall maxRetries 0 0
      (by omega) (by omega)

theorem exceptions_always_retried_witness :
    (∀ n, (fun _ : Nat => AttemptStep.raises .planningError) n =
      .raises .planningError) ∧
    writeRegionWithRetry false 2 (fun _ => .raises .planningError) =
      { outcome := .conversionError 2 .planningError, attempts := 3,
        sleeps := [1, 2] } := by
  refine ⟨fun n => rfl, ?_⟩
  rw [exceptions_always_retried false 2 .planningError _ (fun n => rfl)]
  decide

/-- C8: before every retry the controller sleeps `0.1 × counter` time units
where `counter` is the per-operation retry counter after increment: starting
from a fresh public operation (counter reset to 0) the sleep counters are
exactly `1, 2, …, k` in order for some `k ≤ max_retries` (linear backoff,
number of sleeps capped by the configured maximum). -/
theorem retry_backoff_linear (check : Bool) (maxRetries : Nat)
    (attempt : Nat → AttemptStep) :
    (writeRegionWithRetry check maxRetries attempt).sleeps =
      List.range' 1 (writeRegionWithRetry check maxRetries attempt).sleeps.length ∧
    (writeRegionWithRetry check maxRetries attempt).sleeps.length ≤ maxRetries ∧
    (writeRegionWithRetry check maxRetries attempt).sleeps.map sleepSeconds =
      (List.range' 1
        (writeRegionWithRetry check maxRetries attempt).sleeps.length).map
        (fun c : Nat => (c : ℚ) / 10) := by
  obtain ⟨j, hj, hs⟩ :=
    writeLoop_sleeps check maxRetries attempt maxRetries 0 0 (by omega)
  rw [Nat.zero_add] at hs
  have hs' : (writeRegionWithRetry check maxRetries attempt).sleeps =
      List.range' 1 j := hs
  have hlen : (writeRegionWithRetry check maxRetries attempt).sleeps.length =
      j := by rw [hs', List.length_range']
  refine ⟨?_, ?_, ?_⟩
  · rw [hlen, hs']
  · rw [hlen]; exact hj
  · rw [hlen, hs']
    refine List.map_congr_left (fun c _ => ?_)
    rw [sleepSeconds]
    ring

/-- C9: when the verification step itself raises (for example the archive
cannot be re-opened), `_has_missing` returns `False`, so the surrounding
operation finishes successfully after a single attempt with no retry — a
verification that could not run is indistinguishable from one that found no
regression. -/
theorem verify_crash_reports_no_missing (cv : CheckVars) (e : Exn)
    (input : DataVars) (region : Option (Nat × Nat)) (check : Bool)
    (maxRetries : Nat) :
    hasMissing cv (.error e) input region = false ∧
    writeRegionWithRetry check maxRetries
        (fun _ => .written (hasMissing cv (.error e) input region)) =
      { outcome := .done, attempts := 1, sleeps := [] } := by
  have h := hasMissing_of_store_error cv e input region
  refine ⟨h, ?_⟩
  rw [writeRegionWithRetry, writeLoop]
  simp [h]

/-- C2: with an active `MissingCheckSpec` listing variables `vs` (all present
in the re-opened store and in the processed input), the verification of the
just-written region `[s, e)` reports a detected regression exactly when some
checked variable's missingness mask over the archive's written region differs
from the missingness mask of the processed input dataset. -/
theorem verify_regression_iff (vs : List String) (st input : DataVars)
    (s e : Nat) (hne : vs ≠ [])
    (hst : ∀ n ∈ vs, (st.find? (fun p => p.1 == n)).isSome)
    (hin : ∀ n ∈ vs, (input.find? (fun p => p.1 == n)).isSome) :
    (hasMissing (.vars vs) (.ok st) input (some (s, e)) = true ↔
      ∃ n ∈ vs, regionSel s e (lookupMask st n) ≠ lookupMask input n) := by
  have hfal : (CheckVars.vars vs).falsy = false := by
    simp [CheckVars.falsy, hne]
  rw [hasMissing]
  simp only [hfal, Bool.false_eq_true, if_false]
  rw [hasMissingTry, hasMissingCompare, selectVars_ok st vs hst,
    selectVars_ok input vs hin]
  simp only [List.map_map]
  rw [masksDiffer, List.zip_map']
  simp only [List.any_eq_true, List.mem_map, Function.comp]
  constructor
  · rintro ⟨x, ⟨n, hn, rfl⟩, hdiff⟩
    exact ⟨n, hn, by simpa using hdiff⟩
  · rintro ⟨n, hn, hdiff⟩
    exact ⟨_, ⟨n, hn, rfl⟩, by simpa using hdiff⟩

theorem verify_regression_iff_witness :
    (["hs"] ≠ ([] : List String)) ∧
    (∀ n ∈ ["hs"], (([("hs", [false, false, false, true, false])] :
      DataVars).find? (fun p => p.1 == n)).isSome) ∧
    (∀ n ∈ ["hs"], (([("hs", [false, false, false, false, false])] :
      DataVars).find? (fun p => p.1 == n)).isSome) ∧
    (hasMissing (.vars ["hs"])
        (.ok [("hs", [false, false, false, true, false])])
        [("hs", [false, false, false, false, false])] (some (0, 5)) = true ↔
      ∃ n ∈ ["hs"],
        regionSel 0 5 (lookupMask [("hs", [false, false, false, true, false])] n) ≠
          lookupMask [("hs", [false, false, false, false, false])] n) := by
  refine ⟨by decide, by decide, by decide, ?_⟩
  exact verify_regression_iff ["hs"] [("hs", [false, false, false, true, false])]
    [("hs", [false, false, false, false, false])] 0 5 (by decide) (by decide)
    (by decide)

/-- C5: for a fragment whose first and last sequence coordinates occur in the
archive's (sorted) time axis, `_determine_region` returns, for the time
dimension, the half-open interval from the first index whose axis entry is
`≥` the fragment's first coordinate up to the first index whose axis entry is
`>` the fragment's last coordinate, and `slice(None)` — denoting the full
`[0, length)` interval — for every other archive dimension. -/
theorem locate_region_spec (timeDim : String) (fragTimes axisTimes : List Int)
    (archiveDims : List (String × Nat))
    (_hsorted : isSorted axisTimes = true)
    (_hne : fragTimes ≠ [])
    (hmem0 : fragTimes.headD 0 ∈ axisTimes)
    (_hmem1 : fragTimes.getLastD 0 ∈ axisTimes) :
    determineRegion timeDim fragTimes axisTimes archiveDims =
      (timeDim, DimSlice.range (searchsortedLeft axisTimes (fragTimes.headD 0))
          (searchsortedRight axisTimes (fragTimes.getLastD 0))) ::
        archiveDims.filterMap (fun p =>
          if p.1 == timeDim then none else some (p.1, DimSlice.full)) ∧
    searchsortedLeft axisTimes (fragTimes.headD 0) < axisTimes.length ∧
    searchsortedRight axisTimes (fragTimes.getLastD 0) ≤ axisTimes.length ∧
    (∀ i, i < searchsortedLeft axisTimes (fragTimes.headD 0) →
      axisTimes.getD i 0 < fragTimes.headD 0) ∧
    fragTimes.headD 0 ≤
      axisTimes.getD (searchsortedLeft axisTimes (fragTimes.headD 0)) 0 ∧
    (∀ i, i < searchsortedRight axisTimes (fragTimes.getLastD 0) →
      axisTimes.getD i 0 ≤ fragTimes.getLastD 0) ∧
    (searchsortedRight axisTimes (fragTimes.getLastD 0) < axisTimes.length →
      fragTimes.getLastD 0 <
        axisTimes.getD (searchsortedRight axisTimes (fragTimes.getLastD 0)) 0) ∧
    (∀ d len, (d, len) ∈ archiveDims → d ≠ timeDim →
      (d, DimSlice.full) ∈ determineRegion timeDim fragTimes axisTimes archiveDims ∧
      DimSlice.full.indices len = (0, len)) := by
  have hlt0 : searchsortedLeft axisTimes (fragTimes.headD 0) <
      axisTimes.length := by
    refine takeWhile_length_lt_of_mem _ _ _ hmem0 ?_
    simp
  refine ⟨rfl, hlt0, length_takeWhile_le' _ _, ?_, ?_, ?_, ?_, ?_⟩
  · intro i hi
    have := takeWhile_getD_sat (fun x => decide (x < fragTimes.headD 0))
      axisTimes 0 i hi
    exact of_decide_eq_true this
  · have := takeWhile_getD_stop (fun x => decide (x < fragTimes.headD 0))
      axisTimes 0 hlt0
    simpa using of_decide_eq_false this
  · intro i hi
    have := takeWhile_getD_sat (fun x => decide (x ≤ fragTimes.getLastD 0))
      axisTimes 0 i hi
    exact of_decide_eq_true this
  · intro hlt
    have := takeWhile_getD_stop (fun x => decide (x ≤ fragTimes.getLastD 0))
      axisTimes 0 hlt
    simpa using of_decide_eq_false this
  · intro d len hmem hd
    refine ⟨?_, rfl⟩
    rw [determineRegion]
    refine List.mem_cons_of_mem _ ?_
    refine List.mem_filterMap.mpr ⟨(d, len), hmem, ?_⟩
    have : (d == timeDim) = false := by
      simpa using hd
    simp [this]

theorem locate_region_spec_witness :
    (isSorted [0, 1, 2, 3, 4, 5, 6, 7, 8, 9] = true) ∧
    (([5, 6, 7, 8, 9] : List Int) ≠ []) ∧
    (([5, 6, 7, 8, 9] : List Int).headD 0 ∈
      ([0, 1, 2, 3, 4, 5, 6, 7, 8, 9] : List Int)) ∧
    (([5, 6, 7, 8, 9] : List Int).getLastD 0 ∈
      ([0, 1, 2, 3, 4, 5, 6, 7, 8, 9] : List Int)) ∧
    searchsortedLeft [0, 1, 2, 3, 4, 5, 6, 7, 8, 9]
      (([5, 6, 7, 8, 9] : List Int).headD 0) = 5 ∧
    searchsortedRight [0, 1, 2, 3, 4, 5, 6, 7, 8, 9]
      (([5, 6, 7, 8, 9] : List Int).getLastD 0) = 10 ∧
    determineRegion "time" [5, 6, 7, 8, 9] [0, 1, 2, 3, 4, 5, 6, 7, 8, 9]
        [("time", 10), ("lat", 2), ("lon", 3)] =
      (("time", DimSlice.range
          (searchsortedLeft [0, 1, 2, 3, 4, 5, 6, 7, 8, 9]
            (([5, 6, 7, 8, 9] : List Int).headD 0))
          (searchsortedRight [0, 1, 2, 3, 4, 5, 6, 7, 8, 9]
            (([5, 6, 7, 8, 9] : List Int).getLastD 0))) ::
        ([("time", 10), ("lat", 2), ("lon", 3)] :
          List (String × Nat)).filterMap (fun p =>
            if p.1 == "time" then none else some (p.1, DimSlice.full))) := by
  refine ⟨by decide, by decide, by decide, by decide, by decide, by decide, ?_⟩
  exact (locate_region_spec "time" [5, 6, 7, 8, 9]
    [0, 1, 2, 3, 4, 5, 6, 7, 8, 9] [("time", 10), ("lat", 2), ("lon", 3)]
    (by decide) (by decide) (by decide) (by decide)).1

/-- C6 counterexample: a 6-day fragment `[7..12]` extending past a 10-entry
axis `[0..9]` is NOT rejected — `_determine_region` silently returns the
clipped region `[7, 10)` (3 entries for a 6-entry fragment), because
`np.searchsorted` clamps out-of-extent coordinates to the axis bounds and the
locator raises nothing. -/
theorem locate_out_of_extent_clipped_cx :
    determineRegion "time" [7, 8, 9, 10, 11, 12] [0, 1, 2, 3, 4, 5, 6, 7, 8, 9]
        [("time", 10), ("lat", 2)] =
      [("time", DimSlice.range 7 10), ("lat", DimSlice.full)] ∧
    ([7, 8, 9, 10, 11, 12] : List Int).length = 6 := by
  exact ⟨rfl, rfl⟩

/-- C6 amended: the locator never surfaces an error for out-of-extent
fragments.  It always returns a region: the time interval is the clamped
`[searchsorted_left, searchsorted_right)` pair — both bounded by the axis
length, so a fragment outside the declared global extent yields a silently
truncated (possibly empty) region rather than an error; any failure surfaces
only later, at the write step. -/
theorem locate_total_clipped (timeDim : String) (fragTimes axisTimes : List Int)
    (archiveDims : List (String × Nat)) :
    determineRegion timeDim fragTimes axisTimes archiveDims =
      (timeDim, DimSlice.range (searchsortedLeft axisTimes (fragTimes.headD 0))
          (searchsortedRight axisTimes (fragTimes.getLastD 0))) ::
        archiveDims.filterMap (fun p =>
          if p.1 == timeDim then none else some (p.1, DimSlice.full)) ∧
    searchsortedLeft axisTimes (fragTimes.headD 0) ≤ axisTimes.length ∧
    searchsortedRight axisTimes (fragTimes.getLastD 0) ≤ axisTimes.length :=
  ⟨rfl, length_takeWhile_le' _ _, length_takeWhile_le' _ _⟩

/-- C7: when no frequency is supplied, the template builder infers the
frequency as the difference of the sample's first two time coordinates when
the sample has at least two points, and defaults to one day (`"1D"`) when it
has zero or one point. -/
theorem infer_freq_spec (times : List Int) :
    (2 ≤ times.length →
      inferFreq none times = .delta (times.getD 1 0 - times.getD 0 0)) ∧
    (times.length ≤ 1 → inferFreq none times = .oneDay) := by
  constructor
  · intro h
    match times with
    | t0 :: t1 :: rest => simp [inferFreq]
    | [] => simp at h
    | [t] => simp at h
  · intro h
    match times with
    | [] => rfl
    | [t] => rfl
    | t0 :: t1 :: rest => simp at h

theorem infer_freq_spec_witness :
    (2 ≤ ([3, 10] : List Int).length) ∧
    inferFreq none [3, 10] = .delta 7 ∧
    (([] : List Int).length ≤ 1) ∧
    inferFreq none ([] : List Int) = .oneDay := by
  refine ⟨by decide, ?_, by decide, (infer_freq_spec []).2 (by decide)⟩
  have h := (infer_freq_spec [3, 10]).1 (by decide)
  rw [h]
  decide

/-- C3 counterexample: a full conversion against an output path that already
holds an archive does NOT fail — the write uses mode `"w"` and replaces the
existing store, even though the caller has no way to request overwriting
(`convert` exposes no overwrite flag). -/
theorem convert_overwrites_existing_cx :
    convertWriteStep (some [("u", [true])]) [("v", [false])] =
      .ok [("v", [false])] ∧
    convertWriteMode = ToZarrMode.w :=
  ⟨rfl, rfl⟩

/-- C3 amended: the full-conversion WRITE step always creates the archive with
overwrite semantics (`to_zarr(..., mode="w")`): whatever store exists at the
output path is replaced without error; there is no fail-if-exists check and no
caller-facing overwrite option. -/
theorem convert_always_overwrites (existing : Option DataVars) (ds : DataVars) :
    convertWriteStep existing ds = .ok ds :=
  rfl

/-- C10: in every operation the chunk plan actually applied to the data is
`_chunking_config_to_dict`'s output, which mentions at most the dimension
names `time`, `lat` and `lon`; a configured chunk length under any other
dimension name is never looked up and has no effect on the applied plan. -/
theorem chunk_plan_only_time_lat_lon (c : ChunkingConfig) :
    (∀ d n, (d, n) ∈ chunkingConfigToDict c →
      d = "time" ∨ d = "lat" ∨ d = "lon") ∧
    (∀ d, d ≠ "time" → d ≠ "lat" → d ≠ "lon" →
      dictLookup (chunkingConfigToDict c) d = none) ∧
    (∀ c₂ : ChunkingConfig, c.get "time" = c₂.get "time" →
      c.get "lat" = c₂.get "lat" → c.get "lon" = c₂.get "lon" →
      chunkingConfigToDict c = chunkingConfigToDict c₂) := by
  refine ⟨?_, ?_, ?_⟩
  · intro d n hmem
    rw [chunkingConfigToDict] at hmem
    rcases List.mem_append.mp hmem with hmem' | hmem'
    · rcases List.mem_append.mp hmem' with hmem'' | hmem''
      · left
        cases ht : c.get "time" <;> rw [ht] at hmem'' <;> simp at hmem''
        exact hmem''.1
      · right; left
        cases hl : c.get "lat" <;> rw [hl] at hmem'' <;> simp at hmem''
        exact hmem''.1
    · right; right
      cases ho : c.get "lon" <;> rw [ho] at hmem' <;> simp at hmem'
      exact hmem'.1
  · intro d h1 h2 h3
    have hb1 : ("time" == d) = false := by simp [Ne.symm h1]
    have hb2 : ("lat" == d) = false := by simp [Ne.symm h2]
    have hb3 : ("lon" == d) = false := by simp [Ne.symm h3]
    rw [chunkingConfigToDict, dictLookup]
    cases c.get "time" <;> cases c.get "lat" <;> cases c.get "lon" <;>
      simp [List.find?, hb1, hb2, hb3]
  · intro c₂ h1 h2 h3
    rw [chunkingConfigToDict, chunkingConfigToDict, h1, h2, h3]

theorem chunk_plan_only_time_lat_lon_witness :
    ((ChunkingConfig.mk [("level", 5), ("time", 10)]).get "time" =
      (ChunkingConfig.mk [("time", 10)]).get "time") ∧
    ((ChunkingConfig.mk [("level", 5), ("time", 10)]).get "lat" =
      (ChunkingConfig.mk [("time", 10)]).get "lat") ∧
    ((ChunkingConfig.mk [("level", 5), ("time", 10)]).get "lon" =
      (ChunkingConfig.mk [("time", 10)]).get "lon") ∧
    chunkingConfigToDict (ChunkingConfig.mk [("level", 5), ("time", 10)]) =
      chunkingConfigToDict (ChunkingConfig.mk [("time", 10)]) ∧
    dictLookup
      (chunkingConfigToDict (ChunkingConfig.mk [("level", 5), ("time", 10)]))
      "level" = none := by
  refine ⟨by decide, by decide, by decide, ?_, ?_⟩
  · exact (chunk_plan_only_time_lat_lon
      (ChunkingConfig.mk [("level", 5), ("time", 10)])).2.2
      (ChunkingConfig.mk [("time", 10)]) (by decide) (by decide) (by decide)
  · exact (chunk_plan_only_time_lat_lon
      (ChunkingConfig.mk [("level", 5), ("time", 10)])).2.1
      "level" (by decide) (by decide) (by decide)
